import Mathlib

/-!
Shallow embedding of the 2-D explicit mass-spring simulation
(mess_spring_explicit.py): particle storage, spring rest-length table,
the per-substep force computation and semi-implicit Euler integration with
wall collision, and the scene operations add_particle, clear and attract.
Machine floats are modelled as exact reals; a separate Option-valued model
tracks the NaN produced by normalizing a zero separation vector.
-/

noncomputable section

/-- Dot product of 2-D vectors (taichi Vector.dot). -/
def dot (a b : ℝ × ℝ) : ℝ := a.1 * b.1 + a.2 * b.2

/-- Euclidean norm of a 2-D vector (taichi Vector.norm). -/
def norm2 (a : ℝ × ℝ) : ℝ := Real.sqrt (a.1 * a.1 + a.2 * a.2)

/-- taichi Vector.normalized: the vector divided componentwise by its norm,
over exact reals (the zero vector maps to the zero vector under the division
convention of ℝ; the float NaN behaviour on that input is modelled
separately by normOpt below). -/
def normalized (a : ℝ × ℝ) : ℝ × ℝ := (norm2 a)⁻¹ • a

/-- max_num_particles = 1024 (source line 5). -/
def max_num_particles : ℕ := 1024

/-- particle_mass = 1.0 (source line 11). -/
def particle_mass : ℝ := 1.0

/-- dt = 1e-3 (source line 12). -/
def dt : ℝ := 1e-3

/-- substeps = 10 (source line 13). -/
def substeps : ℕ := 10

/-- The mutable simulation state: the taichi fields x, v, fixed, rest_length,
num_particles and the tunable globals spring_Y, drag_damping and
dashpot_damping. Fields are modelled as total functions on indices; the
scratch force field f is fully recomputed at the start of each substep before
being read, so it is kept local to the substep rather than stored. The i32
pinned flag is modelled as Bool. -/
structure SimState where
  num_particles : ℕ
  x : ℕ → ℝ × ℝ
  v : ℕ → ℝ × ℝ
  fixed : ℕ → Bool
  rest_length : ℕ → ℕ → ℝ
  spring_Y : ℝ
  drag_damping : ℝ
  dashpot_damping : ℝ

/-- The force accumulation of the first loop of substep (source lines 29-43):
start from gravity times the particle mass and, for every j in 0..n-1 whose
rest length with i is nonzero, add the Hookean spring term and the dashpot
damping term, folding left over j. -/
def computeForce (s : SimState) (i : ℕ) : ℝ × ℝ :=
  (List.range s.num_particles).foldl
    (fun fi j =>
      if s.rest_length i j ≠ 0 then
        let x_ij := s.x i - s.x j
        let d := normalized x_ij
        let fi1 := fi + (-s.spring_Y * (norm2 x_ij / s.rest_length i j - 1)) • d
        let v_rel := dot (s.v i - s.v j) d
        fi1 + (-s.dashpot_damping * v_rel) • d
      else fi)
    (particle_mass • ((0 : ℝ), (-9.8 : ℝ)))

/-- One particle of the integration loop before wall collision (source lines
46-53): a pinned particle gets velocity zero and keeps its position; a free
particle gets the velocity kick dt * f / m, then the exponential drag scaling,
then the position update with the already-updated velocity. Returns the pair
(position, velocity). -/
def integrateP (s : SimState) (i : ℕ) : (ℝ × ℝ) × (ℝ × ℝ) :=
  if s.fixed i then (s.x i, ((0 : ℝ), (0 : ℝ)))
  else
    let v1 := s.v i + (dt / particle_mass) • computeForce s i
    let v2 := Real.exp (-dt * s.drag_damping) • v1
    (s.x i + dt • v2, v2)

/-- Wall collision for one axis (source lines 56-66). The argument pairs the
coordinate with the velocity component on that axis; each of the two
sequential conditions moves the particle inside and zeroes that velocity
component. -/
def clampAxis (pv : ℝ × ℝ) : ℝ × ℝ :=
  let a := if pv.1 < 0 then ((0 : ℝ), (0 : ℝ)) else pv
  if a.1 > 1 then ((1 : ℝ), (0 : ℝ)) else a

/-- The full per-particle update of the second loop of substep: integration
followed by the wall clamp applied to each of the two axes. -/
def stepParticle (s : SimState) (i : ℕ) : (ℝ × ℝ) × (ℝ × ℝ) :=
  let pv := integrateP s i
  (((clampAxis (pv.1.1, pv.2.1)).1, (clampAxis (pv.1.2, pv.2.2)).1),
   ((clampAxis (pv.1.1, pv.2.1)).2, (clampAxis (pv.1.2, pv.2.2)).2))

/-- The substep kernel (source lines 24-66): compute forces from the current
state, then integrate and collide every particle i < num_particles. Slots at
or beyond num_particles are untouched. -/
def substep (s : SimState) : SimState :=
  { s with
    x := fun i => if i < s.num_particles then (stepParticle s i).1 else s.x i,
    v := fun i => if i < s.num_particles then (stepParticle s i).2 else s.v i }

/-- The add_particle kernel (source lines 69-81): write position, zero
velocity and the pinned flag into slot num_particles, connect a spring of
rest length 0.1 in both directions to every existing particle within distance
0.15 of the new position, then increment num_particles. The kernel performs
no capacity check against max_num_particles. -/
def add_particle (s : SimState) (pos_x pos_y : ℝ) (fixedFlag : Bool) : SimState :=
  let nid := s.num_particles
  { s with
    num_particles := nid + 1,
    x := fun i => if i = nid then (pos_x, pos_y) else s.x i,
    v := fun i => if i = nid then ((0 : ℝ), (0 : ℝ)) else s.v i,
    fixed := fun i => if i = nid then fixedFlag else s.fixed i,
    rest_length := fun i j =>
      if i = nid ∧ j < nid ∧ norm2 ((pos_x, pos_y) - s.x j) < 0.15 then 0.1
      else if j = nid ∧ i < nid ∧ norm2 ((pos_x, pos_y) - s.x i) < 0.15 then 0.1
      else s.rest_length i j }

/-- The clear branch of the event loop (source lines 110-112):
num_particles = 0 and rest_length.fill(0); positions, velocities and pinned
flags of the now-dead slots are untouched. -/
def clearScene (s : SimState) : SimState :=
  { s with num_particles := 0, rest_length := fun _ _ => 0 }

/-- The attract kernel (source lines 83-87): a direct velocity nudge toward
the point for every particle i < num_particles, with the scalar factors
-dt * substeps * 100 of the broadcast products collected into a single scalar
multiple of the separation vector. -/
def attract (s : SimState) (pos_x pos_y : ℝ) : SimState :=
  { s with
    v := fun i =>
      if i < s.num_particles then
        s.v i + (-dt * (substeps : ℝ) * 100) • (s.x i - (pos_x, pos_y))
      else s.v i }

/-- The state-mutating operations of the interface surface. -/
inductive Op where
  | add (pos_x pos_y : ℝ) (fixedFlag : Bool)
  | clear
  | step
  | pull (pos_x pos_y : ℝ)

/-- Apply one operation to a state. -/
def applyOp (s : SimState) : Op → SimState
  | Op.add px py b => add_particle s px py b
  | Op.clear => clearScene s
  | Op.step => substep s
  | Op.pull px py => attract s px py

/-- Float model of taichi Vector.normalized at the degenerate input:
normalizing the zero vector divides 0 by 0 in every component, which is NaN
in IEEE float arithmetic. none stands for a NaN result, some for a finite
one. -/
def normOpt (a : ℝ × ℝ) : Option (ℝ × ℝ) :=
  if norm2 a = 0 then none else some ((norm2 a)⁻¹ • a)

/-- NaN-tracking model of the force loop of substep (source lines 29-43): the
accumulator becomes none as soon as a NaN direction enters f i, and stays
none, since IEEE arithmetic keeps NaN absorbed through every subsequent
addition and multiplication of the loop body. -/
def computeForceF (s : SimState) (i : ℕ) : Option (ℝ × ℝ) :=
  (List.range s.num_particles).foldl
    (fun fi j =>
      if s.rest_length i j ≠ 0 then
        match fi, normOpt (s.x i - s.x j) with
        | some f0, some d =>
            some (f0 + (-s.spring_Y * (norm2 (s.x i - s.x j) / s.rest_length i j - 1)) • d
              + (-s.dashpot_damping * (dot (s.v i - s.v j) d)) • d)
        | _, _ => none
      else fi)
    (some (particle_mass • ((0 : ℝ), (-9.8 : ℝ))))

/-- The empty scene with the parameter values set in main
(source lines 94-96). -/
def emptyState : SimState where
  num_particles := 0
  x := fun _ => ((0 : ℝ), (0 : ℝ))
  v := fun _ => ((0 : ℝ), (0 : ℝ))
  fixed := fun _ => false
  rest_length := fun _ _ => 0
  spring_Y := 1000
  drag_damping := 1
  dashpot_damping := 100

/-- A scene with one free particle resting at the centre. -/
def state1 : SimState where
  num_particles := 1
  x := fun _ => ((1 : ℝ) / 2, (1 : ℝ) / 2)
  v := fun _ => ((0 : ℝ), (0 : ℝ))
  fixed := fun _ => false
  rest_length := fun _ _ => 0
  spring_Y := 1000
  drag_damping := 1
  dashpot_damping := 100

/-- A scene with one pinned particle resting at the centre. -/
def state1pinned : SimState where
  num_particles := 1
  x := fun _ => ((1 : ℝ) / 2, (1 : ℝ) / 2)
  v := fun _ => ((0 : ℝ), (0 : ℝ))
  fixed := fun _ => true
  rest_length := fun _ _ => 0
  spring_Y := 1000
  drag_damping := 1
  dashpot_damping := 100

/-- A scene with one pinned particle placed outside the unit box. -/
def pinnedOutState : SimState where
  num_particles := 1
  x := fun _ => (-(1 : ℝ) / 2, (1 : ℝ) / 2)
  v := fun _ => ((0 : ℝ), (0 : ℝ))
  fixed := fun _ => true
  rest_length := fun _ _ => 0
  spring_Y := 1000
  drag_damping := 1
  dashpot_damping := 100

/-- Two add_particle calls at the same point (3/10, 3/10) starting from the
empty scene: the second click lands within the proximity radius 0.15 of the
first, so a spring of rest length 0.1 connects two coincident particles. -/
def coincidentState : SimState :=
  add_particle (add_particle emptyState ((3 : ℝ) / 10) ((3 : ℝ) / 10) false)
    ((3 : ℝ) / 10) ((3 : ℝ) / 10) false

/-- A scene already holding max_num_particles particles. -/
def fullState : SimState where
  num_particles := max_num_particles
  x := fun _ => ((1 : ℝ) / 2, (1 : ℝ) / 2)
  v := fun _ => ((0 : ℝ), (0 : ℝ))
  fixed := fun _ => false
  rest_length := fun _ _ => 0
  spring_Y := 1000
  drag_damping := 1
  dashpot_damping := 100

/-! Helper lemmas. -/

/-- A left fold whose body adds a per-index summand is the initial value plus
the sum of the summands over the range. -/
theorem foldl_add_sum (g : ℕ → ℝ × ℝ) (body : ℝ × ℝ → ℕ → ℝ × ℝ)
    (hb : ∀ a j, body a j = a + g j) (n : ℕ) :
    ∀ a : ℝ × ℝ, (List.range n).foldl body a = a + ∑ j in Finset.range n, g j := by
  induction n with
  | zero => intro a; simp
  | succ n ih =>
      intro a
      rw [List.range_succ, List.foldl_append, List.foldl_cons, List.foldl_nil, ih, hb,
        Finset.sum_range_succ, add_assoc]

/-- A coordinate strictly below the wall is moved to 0 and its velocity
component zeroed. -/
theorem clampAxis_of_neg (pv : ℝ × ℝ) (h : pv.1 < 0) :
    clampAxis pv = ((0 : ℝ), (0 : ℝ)) := by
  simp only [clampAxis, if_pos h]
  norm_num

/-- A coordinate strictly above the wall is moved to 1 and its velocity
component zeroed. -/
theorem clampAxis_of_gt (pv : ℝ × ℝ) (h : pv.1 > 1) :
    clampAxis pv = ((1 : ℝ), (0 : ℝ)) := by
  have h0 : ¬ pv.1 < 0 := by linarith
  simp only [clampAxis, if_neg h0, if_pos h]

/-- A coordinate already inside the walls is untouched. -/
theorem clampAxis_of_mem (pv : ℝ × ℝ) (h0 : 0 ≤ pv.1) (h1 : pv.1 ≤ 1) :
    clampAxis pv = pv := by
  have hn : ¬ pv.1 < 0 := not_lt.mpr h0
  have hg : ¬ pv.1 > 1 := not_lt.mpr h1
  simp only [clampAxis, if_neg hn, if_neg hg]

/-- After the wall clamp the coordinate lies in the unit interval. -/
theorem clampAxis_mem (pv : ℝ × ℝ) :
    0 ≤ (clampAxis pv).1 ∧ (clampAxis pv).1 ≤ 1 := by
  rcases lt_or_le pv.1 0 with h | h0
  · rw [clampAxis_of_neg pv h]; norm_num
  rcases le_or_lt pv.1 1 with h1 | h1
  · rw [clampAxis_of_mem pv h0 h1]; exact ⟨h0, h1⟩
  · rw [clampAxis_of_gt pv h1]; norm_num

/-- The clamp never turns a zero velocity component nonzero. -/
theorem clampAxis_snd_zero (p : ℝ) : (clampAxis (p, (0 : ℝ))).2 = 0 := by
  rcases lt_or_le p 0 with h | h0
  · rw [clampAxis_of_neg (p, (0 : ℝ)) h]
  rcases le_or_lt p 1 with h1 | h1
  · rw [clampAxis_of_mem (p, (0 : ℝ)) h0 h1]
  · rw [clampAxis_of_gt (p, (0 : ℝ)) h1]

/-- substep only rewrites x and v inside the active range. -/
theorem substep_x (s : SimState) {i : ℕ} (hi : i < s.num_particles) :
    (substep s).x i = (stepParticle s i).1 := by
  simp only [substep, if_pos hi]

/-- substep only rewrites x and v inside the active range. -/
theorem substep_v (s : SimState) {i : ℕ} (hi : i < s.num_particles) :
    (substep s).v i = (stepParticle s i).2 := by
  simp only [substep, if_pos hi]

/-- substep does not change the particle count. -/
theorem substep_num (s : SimState) : (substep s).num_particles = s.num_particles := rfl

/-- substep does not change the pinned flags. -/
theorem substep_fixed (s : SimState) : (substep s).fixed = s.fixed := rfl

/-- For a pinned particle the integration stage keeps the position and zeroes
the velocity. -/
theorem integrateP_pinned (s : SimState) (i : ℕ) (hp : s.fixed i = true) :
    integrateP s i = (s.x i, ((0 : ℝ), (0 : ℝ))) := by
  simp only [integrateP, hp, if_pos]

/-- A pinned particle has velocity (0, 0) right after a substep, whatever its
position. -/
theorem substep_pinned_v {s : SimState} {i : ℕ} (hi : i < s.num_particles)
    (hp : s.fixed i = true) : (substep s).v i = ((0 : ℝ), (0 : ℝ)) := by
  rw [substep_v s hi]
  simp only [stepParticle, integrateP_pinned s i hp]
  rw [Prod.ext_iff]
  exact ⟨clampAxis_snd_zero _, clampAxis_snd_zero _⟩

/-- A pinned particle inside the unit box keeps its position across a
substep. -/
theorem substep_pinned_x {s : SimState} {i : ℕ} (hi : i < s.num_particles)
    (hp : s.fixed i = true) (h0 : 0 ≤ (s.x i).1) (h1 : (s.x i).1 ≤ 1)
    (h2 : 0 ≤ (s.x i).2) (h3 : (s.x i).2 ≤ 1) : (substep s).x i = s.x i := by
  rw [substep_x s hi]
  simp only [stepParticle, integrateP_pinned s i hp,
    clampAxis_of_mem ((s.x i).1, (0 : ℝ)) h0 h1,
    clampAxis_of_mem ((s.x i).2, (0 : ℝ)) h2 h3]

/-! Claim theorems. -/

/-- C1: contrary to the claim, the code performs no capacity check. On a
scene already holding max_num_particles = 1024 particles, add_particle does
not return CapacityExceeded and does not leave the count unchanged: it writes
slot 1024 and increments num_particles to 1025. -/
theorem C1_overflow :
    fullState.num_particles = max_num_particles ∧
    (add_particle fullState ((1 : ℝ) / 2) ((1 : ℝ) / 2) false).num_particles =
      max_num_particles + 1 :=
  ⟨rfl, rfl⟩

/-- C2: in every substep the net force on particle i is the gravity vector
(0, -9.8) times the particle mass plus, for every j below the particle count
whose rest length with i is nonzero, the Hookean term and the dashpot term
along the normalized separation direction; each particle accumulates the
terms from its own scan only. -/
theorem C2_force_sum (s : SimState) (i : ℕ) :
    computeForce s i =
      particle_mass • ((0 : ℝ), (-9.8 : ℝ)) +
      ∑ j in Finset.range s.num_particles,
        (if s.rest_length i j ≠ 0 then
          (-s.spring_Y * (norm2 (s.x i - s.x j) / s.rest_length i j - 1)) •
              normalized (s.x i - s.x j)
            + (-s.dashpot_damping * dot (s.v i - s.v j) (normalized (s.x i - s.x j))) •
              normalized (s.x i - s.x j)
        else 0) := by
  unfold computeForce
  refine foldl_add_sum _ _ ?_ s.num_particles _
  intro a j
  by_cases h : s.rest_length i j ≠ 0
  · simp only [if_pos h, add_assoc]
  · simp only [if_neg h, add_zero]

/-- C8: attract changes only velocities: for every particle below the count
the velocity is nudged by -(dt * substeps * 100) times the separation from
the attraction point, every other slot and every other component of the state
is unchanged, and no force computation or integration is invoked. -/
theorem C8_attract_only_velocity (s : SimState) (px py : ℝ) :
    (attract s px py).x = s.x ∧
    (attract s px py).rest_length = s.rest_length ∧
    (attract s px py).num_particles = s.num_particles ∧
    (attract s px py).fixed = s.fixed ∧
    ∀ i : ℕ, (attract s px py).v i =
      if i < s.num_particles then
        s.v i + (-(dt * (substeps : ℝ) * 100)) • (s.x i - (px, py))
      else s.v i := by
  refine ⟨rfl, rfl, rfl, rfl, fun i => ?_⟩
  simp only [attract, neg_mul]

/-- C9: clearScene is idempotent: applying it twice yields exactly the state
of applying it once, with count 0, all spring entries 0 and the dead-slot
positions and velocities untouched. -/
theorem C9_clear_idempotent (s : SimState) :
    clearScene (clearScene s) = clearScene s := rfl

/-- C3: each non-pinned particle is updated in this order: velocity gets the
kick dt * force / mass, is then scaled by exp(-dt * drag_damping), and the
position update uses the already-updated, drag-scaled velocity; the result
then passes through the per-axis wall clamp. -/
theorem C3_semi_implicit (s : SimState) (i : ℕ) (hi : i < s.num_particles)
    (hf : s.fixed i = false) :
    let vKick := s.v i + (dt / particle_mass) • computeForce s i
    let vDrag := Real.exp (-dt * s.drag_damping) • vKick
    let pNew := s.x i + dt • vDrag
    (substep s).x i = ((clampAxis (pNew.1, vDrag.1)).1, (clampAxis (pNew.2, vDrag.2)).1) ∧
    (substep s).v i = ((clampAxis (pNew.1, vDrag.1)).2, (clampAxis (pNew.2, vDrag.2)).2) := by
  refine ⟨?_, ?_⟩
  · rw [substep_x s hi]
    simp only [stepParticle, integrateP, hf, Bool.false_eq_true, if_false]
  · rw [substep_v s hi]
    simp only [stepParticle, integrateP, hf, Bool.false_eq_true, if_false]

/-- C3 witness: the update order of C3_semi_implicit evaluated on the
one-free-particle scene. -/
theorem C3_witness :
    0 < state1.num_particles ∧ state1.fixed 0 = false ∧
    (let vKick := state1.v 0 + (dt / particle_mass) • computeForce state1 0
     let vDrag := Real.exp (-dt * state1.drag_damping) • vKick
     let pNew := state1.x 0 + dt • vDrag
     (substep state1).x 0 =
        ((clampAxis (pNew.1, vDrag.1)).1, (clampAxis (pNew.2, vDrag.2)).1) ∧
     (substep state1).v 0 =
        ((clampAxis (pNew.1, vDrag.1)).2, (clampAxis (pNew.2, vDrag.2)).2)) :=
  ⟨Nat.one_pos, rfl, C3_semi_implicit state1 0 Nat.one_pos rfl⟩

/-- C5: after a substep both coordinates of every active particle lie in
[0, 1]; a pre-clamp coordinate below 0 (above 1) comes out exactly 0
(exactly 1) with the velocity component on that axis exactly 0. -/
theorem C5_boundary_clamp (s : SimState) (i : ℕ) (hi : i < s.num_particles) :
    (0 ≤ ((substep s).x i).1 ∧ ((substep s).x i).1 ≤ 1 ∧
     0 ≤ ((substep s).x i).2 ∧ ((substep s).x i).2 ≤ 1) ∧
    ((integrateP s i).1.1 < 0 → ((substep s).x i).1 = 0 ∧ ((substep s).v i).1 = 0) ∧
    ((integrateP s i).1.1 > 1 → ((substep s).x i).1 = 1 ∧ ((substep s).v i).1 = 0) ∧
    ((integrateP s i).1.2 < 0 → ((substep s).x i).2 = 0 ∧ ((substep s).v i).2 = 0) ∧
    ((integrateP s i).1.2 > 1 → ((substep s).x i).2 = 1 ∧ ((substep s).v i).2 = 0) := by
  rw [substep_x s hi, substep_v s hi]
  simp only [stepParticle]
  refine ⟨⟨(clampAxis_mem _).1, (clampAxis_mem _).2, (clampAxis_mem _).1, (clampAxis_mem _).2⟩,
    ?_, ?_, ?_, ?_⟩
  · intro h
    rw [clampAxis_of_neg ((integrateP s i).1.1, (integrateP s i).2.1) h]
    exact ⟨rfl, rfl⟩
  · intro h
    rw [clampAxis_of_gt ((integrateP s i).1.1, (integrateP s i).2.1) h]
    exact ⟨rfl, rfl⟩
  · intro h
    rw [clampAxis_of_neg ((integrateP s i).1.2, (integrateP s i).2.2) h]
    exact ⟨rfl, rfl⟩
  · intro h
    rw [clampAxis_of_gt ((integrateP s i).1.2, (integrateP s i).2.2) h]
    exact ⟨rfl, rfl⟩

/-- C5 witness: the boundary clamp property evaluated on the
one-free-particle scene. -/
theorem C5_witness :
    0 < state1.num_particles ∧
    ((0 ≤ ((substep state1).x 0).1 ∧ ((substep state1).x 0).1 ≤ 1 ∧
      0 ≤ ((substep state1).x 0).2 ∧ ((substep state1).x 0).2 ≤ 1) ∧
     ((integrateP state1 0).1.1 < 0 →
        ((substep state1).x 0).1 = 0 ∧ ((substep state1).v 0).1 = 0) ∧
     ((integrateP state1 0).1.1 > 1 →
        ((substep state1).x 0).1 = 1 ∧ ((substep state1).v 0).1 = 0) ∧
     ((integrateP state1 0).1.2 < 0 →
        ((substep state1).x 0).2 = 0 ∧ ((substep state1).v 0).2 = 0) ∧
     ((integrateP state1 0).1.2 > 1 →
        ((substep state1).x 0).2 = 1 ∧ ((substep state1).v 0).2 = 0)) :=
  ⟨Nat.one_pos, C5_boundary_clamp state1 0 Nat.one_pos⟩

/-- C4 counterexample: the claim fails for a pinned particle outside the unit
box. On a scene with one pinned particle at (-1/2, 1/2) a single substep
moves the position to (0, 1/2): the wall clamp runs unconditionally, also for
pinned particles, so the position does change. -/
theorem C4_counterexample :
    pinnedOutState.fixed 0 = true ∧ 0 < pinnedOutState.num_particles ∧
    (substep pinnedOutState).x 0 ≠ pinnedOutState.x 0 := by
  refine ⟨rfl, Nat.one_pos, ?_⟩
  have hx : (substep pinnedOutState).x 0 = ((0 : ℝ), (1 : ℝ) / 2) := by
    rw [substep_x pinnedOutState Nat.one_pos]
    simp only [stepParticle, integrateP_pinned pinnedOutState 0 rfl]
    rw [clampAxis_of_neg ((pinnedOutState.x 0).1, (0 : ℝ)) (by norm_num [pinnedOutState]),
      clampAxis_of_mem ((pinnedOutState.x 0).2, (0 : ℝ)) (by norm_num [pinnedOutState])
        (by norm_num [pinnedOutState])]
    norm_num [pinnedOutState]
  rw [hx]
  intro h
  have h1 := congrArg Prod.fst h
  norm_num [pinnedOutState] at h1

/-- C4 amended: for every pinned particle, velocity is (0, 0) immediately
after any substep, whatever its position; and provided its position lies
inside the unit box [0,1] x [0,1], its position never changes across any
number of consecutive substeps (a pinned position outside the box is moved
once by the wall clamp). -/
theorem C4_pin_invariant (s : SimState) (i k : ℕ) (hi : i < s.num_particles)
    (hp : s.fixed i = true) :
    (substep^[k + 1] s).v i = ((0 : ℝ), (0 : ℝ)) ∧
    (0 ≤ (s.x i).1 → (s.x i).1 ≤ 1 → 0 ≤ (s.x i).2 → (s.x i).2 ≤ 1 →
      (substep^[k] s).x i = s.x i) := by
  have inv : ∀ m : ℕ, (substep^[m] s).num_particles = s.num_particles ∧
      (substep^[m] s).fixed i = true := by
    intro m
    induction m with
    | zero => exact ⟨rfl, hp⟩
    | succ m ih =>
        rw [Function.iterate_succ_apply']
        exact ⟨ih.1, ih.2⟩
  constructor
  · rw [Function.iterate_succ_apply']
    exact substep_pinned_v ((inv k).1 ▸ hi) (inv k).2
  · intro h0 h1 h2 h3
    induction k with
    | zero => rfl
    | succ m ih =>
        rw [Function.iterate_succ_apply']
        exact (substep_pinned_x ((inv m).1 ▸ hi) (inv m).2 (by rw [ih]; exact h0)
          (by rw [ih]; exact h1) (by rw [ih]; exact h2) (by rw [ih]; exact h3)).trans ih

/-- C4 witness: the amended pin invariant evaluated on the centred pinned
particle across three substeps. -/
theorem C4_witness :
    0 < state1pinned.num_particles ∧ state1pinned.fixed 0 = true ∧
    ((substep^[3 + 1] state1pinned).v 0 = ((0 : ℝ), (0 : ℝ)) ∧
     (0 ≤ (state1pinned.x 0).1 → (state1pinned.x 0).1 ≤ 1 →
      0 ≤ (state1pinned.x 0).2 → (state1pinned.x 0).2 ≤ 1 →
      (substep^[3] state1pinned).x 0 = state1pinned.x 0)) :=
  ⟨Nat.one_pos, rfl, C4_pin_invariant state1pinned 0 3 Nat.one_pos rfl⟩

/-- C6: every operation of the interface preserves symmetry of the spring
table and keeps every self-loop entry at zero: add_particle writes both
directions of each new spring and skips the diagonal, clearScene zeroes the
table, substep and attract do not touch it. -/
theorem C6_spring_table (s : SimState) (op : Op)
    (hsym : ∀ i j, s.rest_length i j = s.rest_length j i)
    (hdiag : ∀ i, s.rest_length i i = 0) :
    (∀ i j, (applyOp s op).rest_length i j = (applyOp s op).rest_length j i) ∧
    (∀ i, (applyOp s op).rest_length i i = 0) := by
  cases op with
  | add px py b =>
      constructor
      · intro i j
        simp only [applyOp, add_particle]
        split_ifs <;> first | rfl | exact hsym i j
      · intro i
        simp only [applyOp, add_particle]
        split_ifs with hA
        · obtain ⟨e, l, -⟩ := hA; omega
        · exact hdiag i
  | clear => exact ⟨fun i j => rfl, fun i => rfl⟩
  | step => exact ⟨hsym, hdiag⟩
  | pull px py => exact ⟨hsym, hdiag⟩

/-- C6 witness: table symmetry and zero diagonal after adding a particle to
the one-particle scene with an all-zero table. -/
theorem C6_witness :
    (∀ i j, state1.rest_length i j = state1.rest_length j i) ∧
    (∀ i, state1.rest_length i i = 0) ∧
    ((∀ i j, (applyOp state1 (Op.add ((7 : ℝ) / 20) ((7 : ℝ) / 20) false)).rest_length i j =
        (applyOp state1 (Op.add ((7 : ℝ) / 20) ((7 : ℝ) / 20) false)).rest_length j i) ∧
     (∀ i, (applyOp state1 (Op.add ((7 : ℝ) / 20) ((7 : ℝ) / 20) false)).rest_length i i = 0)) :=
  ⟨fun _ _ => rfl, fun _ => rfl,
   C6_spring_table state1 (Op.add ((7 : ℝ) / 20) ((7 : ℝ) / 20) false)
     (fun _ _ => rfl) (fun _ => rfl)⟩

/-- C10: attract nudges every particle below the count, with no check of the
pinned flag: a pinned particle gets the same velocity edit as a free one, and
a pinned particle at rest whose position differs from the attraction point
comes out with a nonzero velocity. -/
theorem C10_attract_pinned (s : SimState) (px py : ℝ) (i : ℕ)
    (hi : i < s.num_particles) (hp : s.fixed i = true) :
    (attract s px py).v i = s.v i + (-(dt * (substeps : ℝ) * 100)) • (s.x i - (px, py)) ∧
    (s.v i = 0 → s.x i ≠ (px, py) → (attract s px py).v i ≠ 0) := by
  have hv : (attract s px py).v i =
      s.v i + (-(dt * (substeps : ℝ) * 100)) • (s.x i - (px, py)) := by
    simp only [attract, if_pos hi, neg_mul]
  refine ⟨hv, fun h0 hx => ?_⟩
  rw [hv, h0, zero_add]
  intro hcontra
  apply hx
  have hs : (-(dt * (substeps : ℝ) * 100)) ≠ 0 := by norm_num [dt, substeps]
  rcases smul_eq_zero.mp hcontra with h' | h'
  · exact absurd h' hs
  · exact sub_eq_zero.mp h'

/-- C10 witness: attract evaluated on the centred pinned particle with the
attraction point at the origin. -/
theorem C10_witness :
    0 < state1pinned.num_particles ∧ state1pinned.fixed 0 = true ∧
    ((attract state1pinned 0 0).v 0 =
        state1pinned.v 0 +
          (-(dt * (substeps : ℝ) * 100)) • (state1pinned.x 0 - ((0 : ℝ), (0 : ℝ))) ∧
     (state1pinned.v 0 = 0 → state1pinned.x 0 ≠ ((0 : ℝ), (0 : ℝ)) →
        (attract state1pinned 0 0).v 0 ≠ 0)) :=
  ⟨Nat.one_pos, rfl, C10_attract_pinned state1pinned 0 0 0 Nat.one_pos rfl⟩

/-- C7: contrary to the claim, the force loop has no check for a degenerate
zero separation. Two particles created at the same point are connected by a
spring; the loop normalizes their zero separation vector, dividing 0 by 0 in
each component, and under the NaN-tracking float model the resulting NaN
direction propagates into the net force of particle 0 (none = NaN). -/
theorem C7_degenerate_nan :
    coincidentState.x 0 = coincidentState.x 1 ∧
    coincidentState.rest_length 0 1 = 0.1 ∧
    computeForceF coincidentState 0 = none := by
  have hx0 : coincidentState.x 0 = ((3 : ℝ) / 10, (3 : ℝ) / 10) := rfl
  have hx1 : coincidentState.x 1 = ((3 : ℝ) / 10, (3 : ℝ) / 10) := rfl
  have hdiff : coincidentState.x 0 - coincidentState.x 1 = 0 := by
    rw [hx0, hx1, sub_self]
  have hnormOpt : normOpt (0 : ℝ × ℝ) = none := by
    simp [normOpt, norm2]
  have hr00 : coincidentState.rest_length 0 0 = 0 := by
    norm_num [coincidentState, add_particle, emptyState]
  have hr01 : coincidentState.rest_length 0 1 = 0.1 := by
    norm_num [coincidentState, add_particle, emptyState, norm2, Prod.mk_sub_mk]
  refine ⟨hx0.trans hx1.symm, hr01, ?_⟩
  have hrange : List.range coincidentState.num_particles = [0, 1] := rfl
  unfold computeForceF
  rw [hrange]
  simp only [List.foldl_cons, List.foldl_nil]
  rw [if_pos (by rw [hr01]; norm_num), if_neg (by rw [hr00]; simp), hdiff, hnormOpt]

end
